import Mathlib

/-!
Shallow embedding of the `determine-preset` core (src/lib.rs): parsing a
`key=value` settings string, the preset catalog, the permissive subset
matcher, the closeness ranking, the normalization pass, the diff-table
renderer and the top-level `determine_preset` driver.

Rust `HashMap<String, String>` values are modelled as association lists
`List (String × String)` with unique keys maintained by construction
(`sinsert` overwrites); map iteration order, which Rust leaves
unspecified (per-instance random hashing), is modelled as list order.
Rust functions that can panic (`expect`) return `Option`, `none`
standing for the panic.
-/

namespace DeterminePreset

/-- Association-list lookup: `HashMap::get`. -/
def slookup : List (String × String) → String → Option String
  | [], _ => none
  | kv :: rest, k => if kv.1 = k then some kv.2 else slookup rest k

/-- Map insert with overwrite: `HashMap::insert` (last write wins). -/
def sinsert : List (String × String) → String → String → List (String × String)
  | [], k, v => [(k, v)]
  | kv :: rest, k, v => if kv.1 = k then (k, v) :: rest else kv :: sinsert rest k v

/-- Rust `str::split_whitespace`: split on runs of whitespace, dropping
empty tokens. -/
def splitWsAux : List Char → List Char → List (List Char)
  | [], [] => []
  | [], cur => [cur.reverse]
  | c :: rest, cur =>
    if c.isWhitespace then
      match cur with
      | [] => splitWsAux rest []
      | _ => cur.reverse :: splitWsAux rest []
    else splitWsAux rest (c :: cur)

/-- Tokenize a string on whitespace. -/
def splitWs (s : String) : List (List Char) :=
  splitWsAux s.data []

/-- Rust `str::split('=')`: split into the list of `=`-separated fields
(always at least one field). -/
def splitOnEq : List Char → List Char → List (List Char)
  | [], cur => [cur.reverse]
  | c :: rest, cur =>
    if c = '=' then cur.reverse :: splitOnEq rest []
    else splitOnEq rest (c :: cur)

/-- One token of `parse_string`: `pair.split('=')` followed by two
`parts.next()?` calls, so the name is the first `=`-field and the value
is the second `=`-field; a token with no `=` yields `none` and is
discarded by `filter_map`. -/
def parseToken (tok : List Char) : Option (String × String) :=
  match splitOnEq tok [] with
  | f0 :: f1 :: _ => some (String.mk f0, String.mk f1)
  | _ => none

/-- `parse_string` from src/lib.rs: whitespace-split, per-token
`=`-split, collected into a map (later occurrences of a name overwrite
earlier ones). -/
def parse_string (input : String) : List (String × String) :=
  (splitWs input).foldl
    (fun m tok =>
      match parseToken tok with
      | some nv => sinsert m nv.1 nv.2
      | none => m)
    []

/-- The ten presets of `Determiner::new`, in catalog declaration order,
each built by `parse_string` exactly as in the source. -/
def preset_ultrafast : String × List (String × String) :=
  ("ultrafast", parse_string ("ctu=32 min-cu-size=16 bframes=3 b-adapt=0 rc-lookahead=5 lookahead-slices=8 scenecut=0 ref=1 limit-refs=0 me=dia merange=57 subme=0 rect=0 amp=0 limit-modes=0 max-merge=2 early-skip=1 recursion-skip=1 fast-intra=1 b-intra=0 sao=0 signhide=0 weightp=0 weightb=0 aq-mode=0 cuTree=1 rdLevel=2 rdoq-level=0 tu-intra=1 tu-inter=1 limit-tu=0"))

/-- Preset `superfast` (catalog position 2). -/
def preset_superfast : String × List (String × String) :=
  ("superfast", parse_string ("ctu=32 min-cu-size=8 bframes=3 b-adapt=0 rc-lookahead=10 lookahead-slices=8 scenecut=40 ref=1 limit-refs=0 me=hex merange=57 subme=1 rect=0 amp=0 limit-modes=0 max-merge=2 early-skip=1 recursion-skip=1 fast-intra=1 b-intra=0 sao=0 signhide=1 weightp=0 weightb=0 aq-mode=0 cuTree=1 rdLevel=2 rdoq-level=0 tu-intra=1 tu-inter=1 limit-tu=0"))

/-- Preset `veryfast` (catalog position 3). -/
def preset_veryfast : String × List (String × String) :=
  ("veryfast", parse_string ("ctu=64 min-cu-size=8 bframes=4 b-adapt=0 rc-lookahead=15 lookahead-slices=8 scenecut=40 ref=2 limit-refs=3 me=hex merange=57 subme=1 rect=0 amp=0 limit-modes=0 max-merge=2 early-skip=1 recursion-skip=1 fast-intra=1 b-intra=0 sao=1 signhide=1 weightp=1 weightb=0 aq-mode=2 cuTree=1 rdLevel=2 rdoq-level=0 tu-intra=1 tu-inter=1 limit-tu=0"))

/-- Preset `faster` (catalog position 4). -/
def preset_faster : String × List (String × String) :=
  ("faster", parse_string ("ctu=64 min-cu-size=8 bframes=4 b-adapt=0 rc-lookahead=15 lookahead-slices=8 scenecut=40 ref=2 limit-refs=3 me=hex merange=57 subme=2 rect=0 amp=0 limit-modes=0 max-merge=2 early-skip=1 recursion-skip=1 fast-intra=1 b-intra=0 sao=1 signhide=1 weightp=1 weightb=0 aq-mode=2 cuTree=1 rdLevel=2 rdoq-level=0 tu-intra=1 tu-inter=1 limit-tu=0"))

/-- Preset `fast` (catalog position 5). -/
def preset_fast : String × List (String × String) :=
  ("fast", parse_string ("ctu=64 min-cu-size=8 bframes=4 b-adapt=0 rc-lookahead=15 lookahead-slices=8 scenecut=40 ref=3 limit-refs=3 me=hex merange=57 subme=2 rect=0 amp=0 limit-modes=0 max-merge=2 early-skip=0 recursion-skip=1 fast-intra=1 b-intra=0 sao=1 signhide=1 weightp=1 weightb=0 aq-mode=2 cuTree=1 rdLevel=2 rdoq-level=0 tu-intra=1 tu-inter=1 limit-tu=0"))

/-- Preset `medium` (catalog position 6). -/
def preset_medium : String × List (String × String) :=
  ("medium", parse_string ("ctu=64 min-cu-size=8 bframes=4 b-adapt=2 rc-lookahead=20 lookahead-slices=8 scenecut=40 ref=3 limit-refs=1 me=hex merange=57 subme=2 rect=0 amp=0 limit-modes=0 max-merge=3 early-skip=1 recursion-skip=1 fast-intra=0 b-intra=1 sao=1 signhide=1 weightp=1 weightb=0 aq-mode=2 cuTree=1 rdLevel=3 rdoq-level=0 tu-intra=1 tu-inter=1 limit-tu=0"))

/-- Preset `slow` (catalog position 7). -/
def preset_slow : String × List (String × String) :=
  ("slow", parse_string ("ctu=64 min-cu-size=8 bframes=4 b-adapt=2 rc-lookahead=25 lookahead-slices=4 scenecut=40 ref=4 limit-refs=3 me=star merange=57 subme=3 rect=1 amp=0 limit-modes=1 max-merge=3 early-skip=0 recursion-skip=1 fast-intra=0 b-intra=0 sao=1 signhide=1 weightp=1 weightb=0 aq-mode=2 cuTree=1 rdLevel=4 rdoq-level=2 tu-intra=1 tu-inter=1 limit-tu=0"))

/-- Preset `slower` (catalog position 8). -/
def preset_slower : String × List (String × String) :=
  ("slower", parse_string ("ctu=64 min-cu-size=8 bframes=8 b-adapt=2 rc-lookahead=40 lookahead-slices=1 scenecut=40 ref=5 limit-refs=1 me=star merange=57 subme=4 rect=1 amp=1 limit-modes=1 max-merge=4 early-skip=0 recursion-skip=1 fast-intra=0 b-intra=1 sao=1 signhide=1 weightp=1 weightb=1 aq-mode=2 cuTree=1 rdLevel=6 rdoq-level=2 tu-intra=3 tu-inter=3 limit-tu=4"))

/-- Preset `veryslow` (catalog position 9). -/
def preset_veryslow : String × List (String × String) :=
  ("veryslow", parse_string ("ctu=64 min-cu-size=8 bframes=8 b-adapt=2 rc-lookahead=40 lookahead-slices=1 scenecut=40 ref=5 limit-refs=0 me=star merange=57 subme=4 rect=1 amp=1 limit-modes=0 max-merge=5 early-skip=0 recursion-skip=1 fast-intra=0 b-intra=1 sao=1 signhide=1 weightp=1 weightb=1 aq-mode=2 cuTree=1 rdLevel=6 rdoq-level=2 tu-intra=3 tu-inter=3 limit-tu=0"))

/-- Preset `placebo` (catalog position 10). -/
def preset_placebo : String × List (String × String) :=
  ("placebo", parse_string ("ctu=64 min-cu-size=8 bframes=8 b-adapt=2 rc-lookahead=60 lookahead-slices=1 scenecut=40 ref=5 limit-refs=0 me=star merange=92 subme=5 rect=1 amp=1 limit-modes=0 max-merge=5 early-skip=0 recursion-skip=0 fast-intra=0 b-intra=1 sao=1 signhide=1 weightp=1 weightb=1 aq-mode=2 cuTree=1 rdLevel=6 rdoq-level=2 tu-intra=4 tu-inter=4 limit-tu=0"))

/-- The catalog `Determiner::presets`, in declaration order. -/
def presets : List (String × List (String × String)) :=
  [preset_ultrafast, preset_superfast, preset_veryfast, preset_faster,
   preset_fast, preset_medium, preset_slow, preset_slower,
   preset_veryslow, preset_placebo]

/-- `Determiner::preset_matches`: every observed `(key, value)` pair is
either absent from the preset or mapped to the identical value. -/
def preset_matches (input_settings preset_settings : List (String × String)) : Bool :=
  input_settings.all fun kv =>
    slookup preset_settings kv.1 == none || slookup preset_settings kv.1 == some kv.2

/-- The agreement count of `Determiner::closest_matches`: the number of
observed pairs whose key the preset maps to the identical value. -/
def matchCount (settings preset_settings : List (String × String)) : Nat :=
  (settings.filter fun kv => slookup preset_settings kv.1 == some kv.2).length

/-- The sort key of `closest_matches`: ascending agreement count
(`sort_by_key(|(_, match_count)| *match_count)`). -/
def countLe (a b : String × Nat) : Prop := a.2 ≤ b.2

instance : DecidableRel countLe := fun a b => Nat.decLe a.2 b.2

instance : IsTotal (String × Nat) countLe := ⟨fun a b => Nat.le_total a.2 b.2⟩

instance : IsTrans (String × Nat) countLe := ⟨fun _ _ _ h h' => Nat.le_trans h h'⟩

/-- The catalog-order `(name, agreement count)` list that
`closest_matches` builds before sorting. -/
def rankedBase (settings : List (String × String)) : List (String × Nat) :=
  presets.map fun np => (np.1, matchCount settings np.2)

/-- `Determiner::closest_matches`: stable ascending sort by agreement
count (Rust `sort_by_key` is stable; `List.insertionSort` is the stable
sort with the same ascending order) followed by `Vec::reverse`. -/
def closest_matches (settings : List (String × String)) : List (String × Nat) :=
  (List.insertionSort countLe (rankedBase settings)).reverse

/-- The names of the presets accepted by `preset_matches`, in catalog
declaration order (the `matching_presets` vector of
`Determiner::determine_preset`). -/
def matchingPresets (settings : List (String × String)) : List String :=
  (presets.filter fun np => preset_matches settings np.2).map Prod.fst

/-- Rust `{:?}` (Debug) for `Vec<(String, usize)>`. Debug additionally
escapes quotes, backslashes and control characters inside the strings;
the catalog names and observed values passing through here contain
none, so plain quoting is faithful. -/
def fmtRanked (l : List (String × Nat)) : String :=
  "[" ++ String.intercalate ", "
    (l.map fun e => "(\"" ++ e.1 ++ "\", " ++ toString e.2 ++ ")") ++ "]"

/-- Rust `{:?}` (Debug) for `Vec<String>`, same caveat as `fmtRanked`. -/
def fmtNames (l : List String) : String :=
  "[" ++ String.intercalate ", " (l.map fun n => "\"" ++ n ++ "\"") ++ "]"

/-- The normalization pass inlined in `determine_preset_from_str`:
remove the `me` key, then rewrite `lookahead-slices` from `"0"` to
`"1"` when present with exactly that value. `HashMap::remove` and the
`get_mut` update are modelled as filter/map over the association list,
which agrees with them on unique-key lists. -/
def normalize_settings (s : List (String × String)) : List (String × String) :=
  let s := s.filter fun kv => kv.1 != "me"
  match slookup s "lookahead-slices" with
  | some v =>
    if v = "0" then
      s.map fun kv => if kv.1 = "lookahead-slices" then (kv.1, "1") else kv
    else s
  | none => s

/-- The configuration the core consumes: the CLI verbosity count and the
already-resolved color switch (the spec places `atty`-based color
auto-detection outside the core, so the model takes the resolved
boolean). -/
structure Cfg where
  verbose : Nat
  use_color : Bool

/-- One step of the `max_len` tracking loop in `width_of_values`. -/
def widthStep (acc : Option Nat) (v : String) : Option Nat :=
  some (match acc with
        | none => v.length
        | some m => if v.length > m then v.length else m)

/-- The local `width_of_values` helper of `partially_matching_presets`:
maximum string length of the iterator's elements; the `expect` on an
empty iterator is the `none` case (a panic in Rust). -/
def width_of_values (l : List String) : Option Nat :=
  l.foldl widthStep none

/-- The per-preset column widths (`width_per_preset`):
`max(preset_name.len(), values.max())`, the `expect` on a preset with no
displayed values being the `none` case. The width is zipped with the
preset rather than stored in a separate map. -/
def presetWidths :
    List (String × List (String × String)) →
    Option (List ((String × List (String × String)) × Nat))
  | [] => some []
  | np :: rest => do
    let w ← width_of_values (np.2.map Prod.snd)
    let rest' ← presetWidths rest
    pure ((np, max np.1.length w) :: rest')

/-- Rust `" ".repeat(n)`. -/
def spaces (n : Nat) : String := String.mk (List.replicate n ' ')

/-- Rust `"-".repeat(n)`. -/
def dashes (n : Nat) : String := String.mk (List.replicate n '-')

/-- The `colored` crate's `.bold()`. -/
def boldStr (s : String) : String := "\x1b[1m" ++ s ++ "\x1b[0m"

/-- The `colored` crate's `.green()`. -/
def greenStr (s : String) : String := "\x1b[32m" ++ s ++ "\x1b[0m"

/-- The pure table-building loop of `partially_matching_presets`
(everything after the width computations): header row, dash separator
sized from the header's length, then one row per displayed parameter,
padding computed before color codes are inserted. -/
def renderTable (use_color : Bool) (wp wi : Nat)
    (pws : List ((String × List (String × String)) × Nat))
    (settingsF : List (String × String)) : String :=
  let row1 := spaces wp ++ " | " ++ "input" ++ spaces (wi - "input".length)
  let row1 := pws.foldl
    (fun r npw => r ++ " | " ++ npw.1.1 ++ spaces (npw.2 - npw.1.1.length)) row1
  let table := row1 ++ "\n"
  let table := table ++ dashes (table.length - 1) ++ "\n"
  (settingsF.map Prod.fst).foldl
    (fun table k =>
      let row := k ++ spaces (wp - k.length)
      let row := row ++ " | "
      let value := (slookup settingsF k).getD "-"
      let pad := wi - value.length
      let value := if use_color then boldStr value else value
      let row := row ++ value ++ spaces pad
      let row := pws.foldl
        (fun r npw =>
          let r := r ++ " | "
          let value := (slookup npw.1.2 k).getD "-"
          let pad := npw.2 - value.length
          let is_match := slookup settingsF k == some value
          let value := if is_match && use_color then greenStr value else value
          r ++ value ++ spaces pad)
        row
      table ++ row ++ "\n")
    table

/-- `Determiner::partially_matching_presets`: key-set filtering at
verbosity below 2, top-3 candidate selection from `closest_matches`,
width computation (whose `expect`s make the result an `Option`), then
the table rendering. Column and row order, randomized by Rust's
`HashMap` iteration, is modelled as catalog order and observed-list
order respectively; no claim proved here depends on that order. -/
def partially_matching_presets (cfg : Cfg) (settings : List (String × String)) :
    Option String := do
  let fp ← presets.head?
  let preset_enc_params := fp.2.map Prod.fst
  let input_keys := settings.map Prod.fst
  let pep := if cfg.verbose < 2
    then preset_enc_params.filter fun k => input_keys.contains k
    else preset_enc_params
  let ik := if cfg.verbose < 2
    then input_keys.filter fun k => pep.contains k
    else input_keys
  let preset_names := ((closest_matches settings).map Prod.fst).take 3
  let chosen := presets.filter fun np => preset_names.contains np.1
  let chosenR := chosen.map fun np => (np.1, np.2.filter fun kv => pep.contains kv.1)
  let settingsF := settings.filter fun kv => ik.contains kv.1
  let width_of_parameters ← width_of_values (settingsF.map Prod.fst)
  let wv ← width_of_values (settingsF.map Prod.snd)
  let width_of_input_values := max ("input".length) wv
  let pws ← presetWidths chosenR
  pure (renderTable cfg.use_color width_of_parameters width_of_input_values pws settingsF)

/-- `Determiner::determine_preset`: the permissive-match trichotomy.
`none` stands for a panic escaping `partially_matching_presets`;
`Except.ok` is `Ok(preset name)` and `Except.error` the formatted error
string. -/
def determine_preset (cfg : Cfg) (settings : List (String × String)) :
    Option (Except String String) :=
  let matching := matchingPresets settings
  match matching with
  | [] =>
    if cfg.verbose > 0 then
      (partially_matching_presets cfg settings).map fun t =>
        Except.error ("No matching presets found. Partial matches:\n\n" ++ t)
    else
      some (Except.error
        ("No matching presets found. Closest matches:\n:" ++
          fmtRanked (closest_matches settings)))
  | [name] => some (Except.ok name)
  | _ => some (Except.error ("Multiple matching presets found: " ++ fmtNames matching))

/-- `Determiner::determine_preset_from_str`: parse, normalize, match. -/
def determine_preset_from_str (cfg : Cfg) (input : String) :
    Option (Except String String) :=
  determine_preset cfg (normalize_settings (parse_string input))

/-- The parameter-name schema used by the diff renderer: the key set of
the first catalog preset (`self.presets.iter().next()`). -/
def schemaParams : List String := preset_ultrafast.2.map Prod.fst

/-- The `preset_enc_params` value of `partially_matching_presets`,
exposed as a definition for reasoning. -/
def pmPep (cfg : Cfg) (s : List (String × String)) : List String :=
  if cfg.verbose < 2
  then (preset_ultrafast.2.map Prod.fst).filter fun k => (s.map Prod.fst).contains k
  else preset_ultrafast.2.map Prod.fst

/-- The `input_keys` value of `partially_matching_presets` after its
verbosity-dependent filtering. -/
def pmIk (cfg : Cfg) (s : List (String × String)) : List String :=
  if cfg.verbose < 2
  then (s.map Prod.fst).filter fun k => (pmPep cfg s).contains k
  else s.map Prod.fst

/-- The chosen presets restricted to the displayed parameters (the
second `presets` binding of `partially_matching_presets`). -/
def pmChosenR (cfg : Cfg) (s : List (String × String)) :
    List (String × List (String × String)) :=
  (presets.filter fun np =>
      (((closest_matches s).map Prod.fst).take 3).contains np.1).map
    fun np => (np.1, np.2.filter fun kv => (pmPep cfg s).contains kv.1)

/-- The observed settings restricted to the displayed keys (the
shadowing `settings` binding of `partially_matching_presets`). -/
def pmSettingsF (cfg : Cfg) (s : List (String × String)) :
    List (String × String) :=
  s.filter fun kv => (pmIk cfg s).contains kv.1

/-- Token splitting as the amended claim C4 words it: the name is the
text before the first `=`, the value the text between the first and
second `=` (any suffix after a second `=` is dropped); a token with no
`=` is discarded. -/
def parseTokenAmended (tok : List Char) : Option (String × String) :=
  let name := tok.takeWhile fun c => !(c == '=')
  match tok.dropWhile fun c => !(c == '=') with
  | [] => none
  | _ :: valrest =>
    some (String.mk name, String.mk (valrest.takeWhile fun c => !(c == '=')))

/-- `parse_string` as the amended claim C4 words it: split on
whitespace, drop tokens without `=`, take name/value per
`parseTokenAmended`, and let a repeated name's later occurrence
overwrite the earlier one. -/
def parse_string_amended (input : String) : List (String × String) :=
  (splitWs input).foldl
    (fun m tok =>
      match parseTokenAmended tok with
      | some nv => sinsert m nv.1 nv.2
      | none => m)
    []

/-- The tail of the `=`-field list of a token: empty when the token has
no `=`, otherwise the fields of the text after the first `=`. Used to
relate `splitOnEq` to the takeWhile/dropWhile description. -/
def splitTail (tok : List Char) : List (List Char) :=
  match tok.dropWhile fun c => !(c == '=') with
  | [] => []
  | _ :: rest => splitOnEq rest []

/-! Helper lemmas about the association-list primitives. -/

theorem slookup_mem_of_eq_some {p : List (String × String)} {k v : String}
    (h : slookup p k = some v) : k ∈ p.map Prod.fst := by
  induction p with
  | nil => simp [slookup] at h
  | cons kv rest ih =>
    by_cases hk : kv.1 = k
    · simp [hk]
    · simp only [slookup, hk, if_false] at h
      simp [ih h]

theorem slookup_filter_ne {s : List (String × String)} {a k : String} :
    slookup (s.filter fun kv => kv.1 != a) k =
      if k = a then none else slookup s k := by
  induction s with
  | nil => simp [slookup]
  | cons kv rest ih =>
    by_cases hka : k = a
    · subst hka
      by_cases hh : kv.1 = k
      · simp_all [slookup, List.filter]
      · simp only [List.filter]
        by_cases hne : (kv.1 != k) = true
        · simpa [slookup, hh, hne] using ih
        · simpa [hne] using ih
    · by_cases hh : kv.1 = k
      · subst hh
        have : (kv.1 != a) = true := by simpa using hka
        simp [List.filter, this, slookup, hka]
      · by_cases hne : (kv.1 != a) = true
        · simpa [List.filter, hne, slookup, hh, hka] using ih
        · simpa [List.filter, hne, slookup, hh, hka] using ih

theorem slookup_map_update {s : List (String × String)} {a b k : String}
    (hk : k ≠ a) :
    slookup (s.map fun kv => if kv.1 = a then (kv.1, b) else kv) k =
      slookup s k := by
  induction s with
  | nil => simp [slookup]
  | cons kv rest ih =>
    have hak : ¬a = k := fun h => hk h.symm
    by_cases ha : kv.1 = a
    · have : kv.1 ≠ k := fun h => hk (h.symm.trans ha)
      simp [slookup, ha, this, hak, ih]
    · by_cases hh : kv.1 = k
      · simp [slookup, ha, hh, hk, ih]
      · simp [slookup, ha, hh, ih]

theorem slookup_map_update_self {s : List (String × String)} {a b v : String}
    (h : slookup s a = some v) :
    slookup (s.map fun kv => if kv.1 = a then (kv.1, b) else kv) a =
      some b := by
  induction s with
  | nil => simp [slookup] at h
  | cons kv rest ih =>
    by_cases ha : kv.1 = a
    · simp [slookup, ha]
    · simp only [slookup, ha, if_false] at h
      simp [slookup, ha, ih h]

theorem keys_map_update {s : List (String × String)} {a b : String} :
    (s.map fun kv => if kv.1 = a then (kv.1, b) else kv).map Prod.fst =
      s.map Prod.fst := by
  induction s with
  | nil => rfl
  | cons kv rest ih =>
    by_cases ha : kv.1 = a <;> simp [ha, ih]

theorem sinsert_of_lookup_none {s : List (String × String)} {k v : String}
    (h : slookup s k = none) : sinsert s k v = s ++ [(k, v)] := by
  induction s with
  | nil => rfl
  | cons kv rest ih =>
    by_cases hh : kv.1 = k
    · simp [slookup, hh] at h
    · simp only [slookup, hh, if_false] at h
      simp [sinsert, hh, ih h]

/-! Helper lemmas about the width computations. -/

theorem widthStep_foldl_isSome :
    ∀ (l : List String) (m : Nat), (l.foldl widthStep (some m)).isSome = true
  | [], _ => rfl
  | v :: t, m => by
    simp only [List.foldl, widthStep]
    exact widthStep_foldl_isSome t _

theorem width_isSome_iff (l : List String) :
    (width_of_values l).isSome = true ↔ l ≠ [] := by
  cases l with
  | nil => simp [width_of_values]
  | cons v t =>
    simp only [width_of_values, List.foldl, widthStep]
    simpa using widthStep_foldl_isSome t v.length

theorem presetWidths_isSome_iff :
    ∀ l : List (String × List (String × String)),
      (presetWidths l).isSome = true ↔ ∀ np ∈ l, np.2 ≠ []
  | [] => by simp [presetWidths]
  | np :: rest => by
    cases hw : width_of_values (np.2.map Prod.snd) with
    | none =>
      have hnil : np.2 = [] := by
        by_contra hne
        have : (width_of_values (np.2.map Prod.snd)).isSome = true :=
          (width_isSome_iff _).mpr (by simpa using hne)
        rw [hw] at this
        exact Bool.noConfusion this
      have hres : presetWidths (np :: rest) = none := by
        simp [presetWidths, hw]
      rw [hres]
      constructor
      · intro h
        exact Bool.noConfusion h
      · intro hall
        exact (hall np (List.mem_cons_self np rest) hnil).elim
    | some w =>
      have hne : np.2 ≠ [] := by
        intro hnil
        rw [hnil] at hw
        exact Option.noConfusion (hw.symm.trans rfl)
      cases hr : presetWidths rest with
      | none =>
        have hnall : ¬∀ x ∈ rest, x.2 ≠ [] := by
          intro hall
          have hs := (presetWidths_isSome_iff rest).mpr hall
          rw [hr] at hs
          exact Bool.noConfusion hs
        have hnone : presetWidths (np :: rest) = none := by
          simp [presetWidths, hw, hr]
        rw [hnone]
        constructor
        · intro h
          exact Bool.noConfusion h
        · intro hall
          exact (hnall fun x hx => hall x (List.mem_cons_of_mem np hx)).elim
      | some ws =>
        have hall : ∀ x ∈ rest, x.2 ≠ [] :=
          (presetWidths_isSome_iff rest).mp (by simp [hr])
        have hsome :
            presetWidths (np :: rest) = some ((np, max np.1.length w) :: ws) := by
          simp [presetWidths, hw, hr]
        rw [hsome]
        constructor
        · intro _ x hx
          rcases List.mem_cons.mp hx with h | h
          · rw [h]; exact hne
          · exact hall x h
        · intro _
          rfl

/-! Stability of the closeness ranking's sort: filtering the sorted
list to one agreement count gives exactly the same sequence as
filtering the unsorted list, because `insertionSort` never reorders
elements with equal keys. -/

theorem filter_orderedInsert_count (c : Nat) (x : String × Nat) :
    ∀ s : List (String × Nat), s.Sorted countLe →
      (List.orderedInsert countLe x s).filter (fun e => e.2 == c) =
        if x.2 = c then x :: s.filter (fun e => e.2 == c)
        else s.filter (fun e => e.2 == c)
  | [], _ => by
    by_cases hx : x.2 = c <;> simp [List.orderedInsert, hx]
  | y :: t, hs => by
    by_cases hle : countLe x y
    · simp only [List.orderedInsert, if_pos hle]
      by_cases hx : x.2 = c <;> simp [hx]
    · have hyx : y.2 < x.2 := Nat.lt_of_not_le hle
      have ht : t.Sorted countLe := hs.of_cons
      have ih := filter_orderedInsert_count c x t ht
      simp only [List.orderedInsert, if_neg hle]
      by_cases hx : x.2 = c
      · have hy : ¬y.2 = c := fun h => Nat.lt_irrefl _ (h ▸ hx ▸ hyx)
        simp [hy, ih, hx]
      · by_cases hy : y.2 = c <;> simp [hy, ih, hx]

theorem filter_insertionSort_count (c : Nat) :
    ∀ l : List (String × Nat),
      (List.insertionSort countLe l).filter (fun e => e.2 == c) =
        l.filter (fun e => e.2 == c)
  | [] => rfl
  | a :: l => by
    have hsorted := List.sorted_insertionSort countLe l
    have h := filter_orderedInsert_count c a (List.insertionSort countLe l) hsorted
    have ih := filter_insertionSort_count c l
    simp only [List.insertionSort, h, ih]
    by_cases ha : a.2 = c <;> simp [ha]

/-! Facts about the concrete catalog, established by evaluation: all ten
presets use the same parameter-name schema (that of the first preset)
and none is empty. -/

theorem schema_subset_all :
    ∀ np ∈ presets, ∀ k ∈ schemaParams, k ∈ np.2.map Prod.fst := by decide

theorem schema_superset_all :
    ∀ np ∈ presets, ∀ kv ∈ np.2, kv.1 ∈ schemaParams := by decide

theorem presets_vals_nonempty : ∀ np ∈ presets, np.2 ≠ [] := by decide

/-! The diff renderer as an explicit bind chain: definitionally equal to
`partially_matching_presets`, but with the intermediate data exposed. -/

theorem partially_as_chain (cfg : Cfg) (s : List (String × String)) :
    partially_matching_presets cfg s =
      (width_of_values ((pmSettingsF cfg s).map Prod.fst)).bind fun wp =>
      (width_of_values ((pmSettingsF cfg s).map Prod.snd)).bind fun wv =>
      (presetWidths (pmChosenR cfg s)).bind fun pws =>
      some (renderTable cfg.use_color wp (max ("input".length) wv) pws
        (pmSettingsF cfg s)) := rfl

theorem partially_isSome_eq (cfg : Cfg) (s : List (String × String)) :
    (partially_matching_presets cfg s).isSome =
      ((width_of_values ((pmSettingsF cfg s).map Prod.fst)).isSome &&
       (width_of_values ((pmSettingsF cfg s).map Prod.snd)).isSome &&
       (presetWidths (pmChosenR cfg s)).isSome) := by
  rw [partially_as_chain]
  cases width_of_values ((pmSettingsF cfg s).map Prod.fst) <;>
    cases width_of_values ((pmSettingsF cfg s).map Prod.snd) <;>
      cases presetWidths (pmChosenR cfg s) <;> rfl

/-- The exact no-panic condition of `partially_matching_presets`: below
verbosity 2 the observed map must share a key with the preset schema
(otherwise the displayed key set is empty and `width_of_values`'s
`expect` fires); at verbosity 2 and above the observed map must merely
be nonempty. -/
theorem partially_isSome_iff (cfg : Cfg) (s : List (String × String)) :
    (partially_matching_presets cfg s).isSome = true ↔
      (if cfg.verbose < 2
       then ∃ k, k ∈ s.map Prod.fst ∧ k ∈ schemaParams
       else s ≠ []) := by
  rw [partially_isSome_eq]
  by_cases hv : cfg.verbose < 2
  · rw [if_pos hv]
    constructor
    · intro h
      have h1 : (width_of_values ((pmSettingsF cfg s).map Prod.fst)).isSome = true := by
        rcases Bool.and_eq_true_iff.mp h with ⟨h12, _⟩
        exact (Bool.and_eq_true_iff.mp h12).1
      have hne : pmSettingsF cfg s ≠ [] := by
        intro hnil
        rw [(width_isSome_iff _)] at h1
        exact h1 (by rw [hnil]; rfl)
      rcases List.exists_mem_of_ne_nil _ hne with ⟨kv, hkv⟩
      rcases List.mem_filter.mp hkv with ⟨hkvs, hkvik⟩
      have hik : kv.1 ∈ pmIk cfg s := List.elem_iff.mp hkvik
      rw [pmIk, if_pos hv] at hik
      rcases List.mem_filter.mp hik with ⟨hkeys, hkpep⟩
      have hpep : kv.1 ∈ pmPep cfg s := List.elem_iff.mp hkpep
      rw [pmPep, if_pos hv] at hpep
      rcases List.mem_filter.mp hpep with ⟨hschema, _⟩
      exact ⟨kv.1, hkeys, hschema⟩
    · rintro ⟨k, hk, hks⟩
      have hpep : k ∈ pmPep cfg s := by
        rw [pmPep, if_pos hv]
        exact List.mem_filter.mpr ⟨hks, List.elem_iff.mpr hk⟩
      have hik : k ∈ pmIk cfg s := by
        rw [pmIk, if_pos hv]
        exact List.mem_filter.mpr ⟨hk, List.elem_iff.mpr hpep⟩
      rcases List.mem_map.mp hk with ⟨kv, hkvs, hkv1⟩
      have hkvF : kv ∈ pmSettingsF cfg s :=
        List.mem_filter.mpr ⟨hkvs, List.elem_iff.mpr (hkv1 ▸ hik)⟩
      have hFne : pmSettingsF cfg s ≠ [] := List.ne_nil_of_mem hkvF
      have h1 : (width_of_values ((pmSettingsF cfg s).map Prod.fst)).isSome = true :=
        (width_isSome_iff _).mpr (by simpa using hFne)
      have h2 : (width_of_values ((pmSettingsF cfg s).map Prod.snd)).isSome = true :=
        (width_isSome_iff _).mpr (by simpa using hFne)
      have h3 : (presetWidths (pmChosenR cfg s)).isSome = true := by
        rw [presetWidths_isSome_iff]
        intro np' hnp'
        rcases List.mem_map.mp hnp' with ⟨np, hnpc, hnp'eq⟩
        have hnp : np ∈ presets := List.mem_of_mem_filter hnpc
        have hknp : k ∈ np.2.map Prod.fst := schema_subset_all np hnp k hks
        rcases List.mem_map.mp hknp with ⟨kv', hkv', hkv'1⟩
        have hkv'f : kv' ∈ np.2.filter fun kv => (pmPep cfg s).contains kv.1 :=
          List.mem_filter.mpr ⟨hkv', List.elem_iff.mpr (hkv'1 ▸ hpep)⟩
        rw [← hnp'eq]
        exact List.ne_nil_of_mem hkv'f
      rw [h1, h2, h3]
      rfl
  · rw [if_neg hv]
    have hik : pmIk cfg s = s.map Prod.fst := by rw [pmIk, if_neg hv]
    have hsf : pmSettingsF cfg s = s := by
      rw [pmSettingsF, hik]
      apply List.filter_eq_self.mpr
      intro kv hkv
      exact List.elem_iff.mpr (List.mem_map_of_mem Prod.fst hkv)
    constructor
    · intro h hnil
      have h1 : (width_of_values ((pmSettingsF cfg s).map Prod.fst)).isSome = true := by
        rcases Bool.and_eq_true_iff.mp h with ⟨h12, _⟩
        exact (Bool.and_eq_true_iff.mp h12).1
      rw [hsf, hnil] at h1
      exact Bool.noConfusion h1
    · intro hne
      have h1 : (width_of_values ((pmSettingsF cfg s).map Prod.fst)).isSome = true :=
        (width_isSome_iff _).mpr (by rw [hsf]; simpa using hne)
      have h2 : (width_of_values ((pmSettingsF cfg s).map Prod.snd)).isSome = true :=
        (width_isSome_iff _).mpr (by rw [hsf]; simpa using hne)
      have h3 : (presetWidths (pmChosenR cfg s)).isSome = true := by
        rw [presetWidths_isSome_iff]
        intro np' hnp'
        rcases List.mem_map.mp hnp' with ⟨np, hnpc, hnp'eq⟩
        have hnp : np ∈ presets := List.mem_of_mem_filter hnpc
        rcases List.exists_mem_of_ne_nil _ (presets_vals_nonempty np hnp) with ⟨kv', hkv'⟩
        have hks : kv'.1 ∈ schemaParams := schema_superset_all np hnp kv' hkv'
        have hpep : kv'.1 ∈ pmPep cfg s := by
          rw [pmPep, if_neg hv]
          exact hks
        have hkv'f : kv' ∈ np.2.filter fun kv => (pmPep cfg s).contains kv.1 :=
          List.mem_filter.mpr ⟨hkv', List.elem_iff.mpr hpep⟩
        rw [← hnp'eq]
        exact List.ne_nil_of_mem hkv'f
      rw [h1, h2, h3]
      rfl

/-! The tokenizer's `=`-splitting related to its takeWhile/dropWhile
description. -/

theorem splitOnEq_eq :
    ∀ tok acc : List Char,
      splitOnEq tok acc =
        (acc.reverse ++ tok.takeWhile fun c => !(c == '=')) :: splitTail tok
  | [], acc => by simp [splitOnEq, splitTail]
  | c :: rest, acc => by
    by_cases hc : c = '='
    · subst hc
      simp [splitOnEq, splitTail]
    · have hb : (!(c == '=')) = true := by simp [hc]
      simp only [splitOnEq, if_neg hc, splitTail, List.takeWhile_cons,
        List.dropWhile_cons, hb, if_true]
      rw [splitOnEq_eq rest (c :: acc)]
      simp [splitTail]

theorem parseToken_eq_amended (tok : List Char) :
    parseToken tok = parseTokenAmended tok := by
  rw [parseToken, splitOnEq_eq tok []]
  cases hd : tok.dropWhile fun c => !(c == '=') with
  | nil =>
    simp [parseTokenAmended, splitTail, hd]
  | cons c valrest =>
    simp [parseTokenAmended, splitTail, hd, splitOnEq_eq valrest []]

/-! The permissive matcher characterized through lookups. -/

theorem preset_matches_iff_lookup :
    ∀ observed preset : List (String × String),
      (observed.map Prod.fst).Nodup →
      (preset_matches observed preset = true ↔
        ∀ k ∈ observed.map Prod.fst,
          slookup preset k = none ∨ slookup preset k = slookup observed k)
  | [], preset, _ => by simp [preset_matches]
  | kv :: t, preset, hnodup => by
    rw [List.map_cons, List.nodup_cons] at hnodup
    obtain ⟨hne, hnd⟩ := hnodup
    have iht := preset_matches_iff_lookup t preset hnd
    have hhead : slookup (kv :: t) kv.1 = some kv.2 := by simp [slookup]
    have htail : ∀ k ∈ t.map Prod.fst, slookup (kv :: t) k = slookup t k := by
      intro k hk
      have hkk : ¬kv.1 = k := fun h => hne (h ▸ hk)
      simp [slookup, hkk]
    constructor
    · intro h k hk
      have hparts := Bool.and_eq_true_iff.mp
        (by simpa only [preset_matches, List.all_cons] using h)
      rw [List.map_cons, List.mem_cons] at hk
      rcases hk with rfl | hk'
      · rcases Bool.or_eq_true_iff.mp hparts.1 with h1 | h1
        · exact Or.inl (by simpa using h1)
        · right
          rw [hhead]
          simpa using h1
      · rw [htail k hk']
        exact (iht.mp hparts.2) k hk'
    · intro h
      have h1 : (slookup preset kv.1 == none ||
          slookup preset kv.1 == some kv.2) = true := by
        rcases h kv.1 (by simp) with h' | h'
        · simp [h']
        · rw [hhead] at h'
          simp [h']
      have h2 : preset_matches t preset = true :=
        iht.mpr fun k hk => by
          have hh := h k (by simp [hk])
          rwa [htail k hk] at hh
      simpa only [preset_matches, List.all_cons, Bool.and_eq_true] using ⟨h1, h2⟩

/-- C1: `preset_matches` accepts a preset exactly when every key present
in the observed map is either absent from the preset or mapped by it to
the identical value; in particular the empty observed map matches every
preset. -/
theorem claim_C1 (observed preset : List (String × String))
    (hnodup : (observed.map Prod.fst).Nodup) :
    (preset_matches observed preset = true ↔
      ∀ k ∈ observed.map Prod.fst,
        slookup preset k = none ∨ slookup preset k = slookup observed k)
    ∧ preset_matches [] preset = true :=
  ⟨preset_matches_iff_lookup observed preset hnodup, rfl⟩

/-- Witness for C1 at a concrete observed map and preset. -/
theorem claim_C1_witness :
    (([(("ctu" : String), ("32" : String))]).map Prod.fst).Nodup ∧
      ((preset_matches [("ctu", "32")] preset_ultrafast.2 = true ↔
        ∀ k ∈ ([(("ctu" : String), ("32" : String))]).map Prod.fst,
          slookup preset_ultrafast.2 k = none ∨
            slookup preset_ultrafast.2 k = slookup [("ctu", "32")] k)
      ∧ preset_matches [] preset_ultrafast.2 = true) :=
  ⟨by simp, claim_C1 [("ctu", "32")] preset_ultrafast.2 (by simp)⟩

/-- C3: `closest_matches` is exactly the stable ascending sort of the
catalog-order (name, agreement count) list followed by a full reversal;
consequently it is sorted by descending agreement count, and the
entries carrying any fixed count appear in the reverse of their catalog
declaration order. -/
theorem claim_C3 (observed : List (String × String)) :
    closest_matches observed =
      (List.insertionSort countLe (rankedBase observed)).reverse
    ∧ (closest_matches observed).Sorted (fun a b => b.2 ≤ a.2)
    ∧ ∀ c : Nat,
        (closest_matches observed).filter (fun e => e.2 == c) =
          ((rankedBase observed).filter (fun e => e.2 == c)).reverse := by
  refine ⟨rfl, ?_, ?_⟩
  · have h := List.sorted_insertionSort countLe (rankedBase observed)
    exact List.pairwise_reverse.mpr h
  · intro c
    simp only [closest_matches]
    rw [List.filter_reverse, filter_insertionSort_count]

/-- C4 counterexample: for the token `a=b=c` the code retains only the
text between the first and the second `=` as the value — the parsed
value of `a` is `"b"`, not the entire remainder `"b=c"` the claim
asserts. -/
theorem claim_C4_counterexample :
    parse_string "a=b=c" = [("a", "b")] ∧
      slookup (parse_string "a=b=c") "a" ≠ some "b=c" :=
  ⟨rfl, by decide⟩

/-- C4 (amended): `parse_string` splits on whitespace, silently drops
tokens with no `=`, takes the text before the first `=` as the name and
the text between the first and second `=` as the value (any suffix
after a second `=` is dropped), values otherwise kept as raw strings,
and a repeated name's later occurrence overwrites the earlier one. -/
theorem claim_C4 (input : String) :
    parse_string input = parse_string_amended input := by
  have h : parseToken = parseTokenAmended := funext parseToken_eq_amended
  rw [parse_string, parse_string_amended, h]

/-- C9: adding a fresh key/value constraint to the observed map can
only shrink the set of presets accepted by `preset_matches`, never
enlarge it; in particular `matchingPresets` after the insertion is a
subset of `matchingPresets` before. -/
theorem claim_C9 (observed : List (String × String)) (k v : String)
    (hfresh : slookup observed k = none) :
    (∀ preset : List (String × String),
        preset_matches (sinsert observed k v) preset = true →
        preset_matches observed preset = true)
    ∧ ∀ n ∈ matchingPresets (sinsert observed k v),
        n ∈ matchingPresets observed := by
  have happ : sinsert observed k v = observed ++ [(k, v)] :=
    sinsert_of_lookup_none hfresh
  have hmono : ∀ preset : List (String × String),
      preset_matches (sinsert observed k v) preset = true →
      preset_matches observed preset = true := by
    intro preset h
    rw [happ] at h
    simp only [preset_matches, List.all_append, Bool.and_eq_true] at h
    exact h.1
  refine ⟨hmono, ?_⟩
  intro n hn
  simp only [matchingPresets] at hn ⊢
  rcases List.mem_map.mp hn with ⟨np, hnp, rfl⟩
  rcases List.mem_filter.mp hnp with ⟨hmem, hq⟩
  exact List.mem_map_of_mem _ (List.mem_filter.mpr ⟨hmem, hmono np.2 hq⟩)

/-- Witness for C9 at a concrete observed map and fresh key. -/
theorem claim_C9_witness :
    slookup [(("ctu" : String), ("32" : String))] "min-cu-size" = none ∧
      ((∀ preset : List (String × String),
          preset_matches (sinsert [("ctu", "32")] "min-cu-size" "8") preset = true →
          preset_matches [("ctu", "32")] preset = true)
        ∧ ∀ n ∈ matchingPresets (sinsert [("ctu", "32")] "min-cu-size" "8"),
            n ∈ matchingPresets [("ctu", "32")]) :=
  ⟨rfl, claim_C9 [("ctu", "32")] "min-cu-size" "8" rfl⟩

/-- C10: `closest_matches` returns exactly one entry per catalog preset
— its output is a permutation of the catalog-order list pairing each
preset's name with its agreement count (the number of observed pairs
the preset maps identically) — and every agreement count is at most the
number of observed keys. -/
theorem claim_C10 (observed : List (String × String)) :
    (closest_matches observed).Perm (rankedBase observed)
    ∧ rankedBase observed =
        presets.map (fun np => (np.1, matchCount observed np.2))
    ∧ (closest_matches observed).all
        (fun e => decide (e.2 ≤ observed.length)) = true := by
  have hperm : (closest_matches observed).Perm (rankedBase observed) :=
    (List.reverse_perm _).trans (List.perm_insertionSort countLe _)
  refine ⟨hperm, rfl, ?_⟩
  rw [List.all_eq_true]
  intro e he
  rw [decide_eq_true_eq]
  have hbase : e ∈ rankedBase observed := hperm.subset he
  simp only [rankedBase] at hbase
  rcases List.mem_map.mp hbase with ⟨np, _, heq⟩
  rw [← heq]
  simpa [matchCount] using
    List.length_filter_le (fun kv => slookup np.2 kv.1 == some kv.2) observed

/-- When no preset matches, some observed pair conflicts with the first
preset, so the observed map is nonempty and shares a key with the
schema: the diff renderer cannot panic from `determine_preset`. -/
theorem no_match_partially_isSome (cfg : Cfg) {s : List (String × String)}
    (h : matchingPresets s = []) :
    (partially_matching_presets cfg s).isSome = true := by
  have hfil : (presets.filter fun np => preset_matches s np.2) = [] := by
    simp only [matchingPresets] at h
    exact List.map_eq_nil_iff.mp h
  have hu : preset_matches s preset_ultrafast.2 = false := by
    have hmem : preset_ultrafast ∈ presets := by simp [presets]
    exact Bool.eq_false_iff.mpr (List.filter_eq_nil_iff.mp hfil preset_ultrafast hmem)
  rcases List.all_eq_false.mp hu with ⟨kv, hkvs, hkvf⟩
  have hfalse : (slookup preset_ultrafast.2 kv.1 == none ||
      slookup preset_ultrafast.2 kv.1 == some kv.2) = false :=
    Bool.eq_false_iff.mpr hkvf
  have hne : slookup preset_ultrafast.2 kv.1 ≠ none := by
    intro hnone
    rw [hnone] at hfalse
    simp at hfalse
  rcases Option.ne_none_iff_exists'.mp hne with ⟨v', hv'⟩
  have hkschema : kv.1 ∈ schemaParams := by
    rw [schemaParams]
    exact slookup_mem_of_eq_some hv'
  rw [partially_isSome_iff]
  by_cases hv : cfg.verbose < 2
  · rw [if_pos hv]
    exact ⟨kv.1, List.mem_map_of_mem Prod.fst hkvs, hkschema⟩
  · rw [if_neg hv]
    exact List.ne_nil_of_mem hkvs

/-- C2: `determine_preset` always returns (never panics), and the
result is the trichotomy on the number of matching presets: zero gives
a NoMatch error, exactly one gives success with that preset's name, two
or more gives the AmbiguousMatch error listing the matching names in
catalog declaration order; every name reported as matching is one the
matcher accepts. -/
theorem claim_C2 (cfg : Cfg) (observed : List (String × String)) :
    (∃ r, determine_preset cfg observed = some r)
    ∧ (matchingPresets observed = [] →
        ∃ msg, determine_preset cfg observed = some (Except.error msg))
    ∧ (∀ n, matchingPresets observed = [n] →
        determine_preset cfg observed = some (Except.ok n))
    ∧ (2 ≤ (matchingPresets observed).length →
        determine_preset cfg observed = some (Except.error
          ("Multiple matching presets found: " ++
            fmtNames (matchingPresets observed))))
    ∧ matchingPresets observed =
        (presets.filter fun np => preset_matches observed np.2).map Prod.fst
    ∧ ∀ n ∈ matchingPresets observed, ∃ p,
        (n, p) ∈ presets ∧ preset_matches observed p = true := by
  have hzero : matchingPresets observed = [] →
      ∃ msg, determine_preset cfg observed = some (Except.error msg) := by
    intro hm
    by_cases hv : cfg.verbose > 0
    · have hp := no_match_partially_isSome cfg hm
      rcases Option.isSome_iff_exists.mp hp with ⟨t, ht⟩
      exact ⟨"No matching presets found. Partial matches:\n\n" ++ t,
        by simp [determine_preset, hm, hv, ht]⟩
    · exact ⟨"No matching presets found. Closest matches:\n:" ++
          fmtRanked (closest_matches observed),
        by simp [determine_preset, hm, hv]⟩
  have hone : ∀ n, matchingPresets observed = [n] →
      determine_preset cfg observed = some (Except.ok n) := by
    intro n hm
    simp [determine_preset, hm]
  have hmany : 2 ≤ (matchingPresets observed).length →
      determine_preset cfg observed = some (Except.error
        ("Multiple matching presets found: " ++
          fmtNames (matchingPresets observed))) := by
    intro hlen
    cases hm : matchingPresets observed with
    | nil => rw [hm] at hlen; simp at hlen
    | cons a t =>
      cases t with
      | nil => rw [hm] at hlen; simp at hlen
      | cons b t2 => simp [determine_preset, hm]
  refine ⟨?_, hzero, hone, hmany, rfl, ?_⟩
  · cases hm : matchingPresets observed with
    | nil =>
      rcases hzero hm with ⟨msg, hmsg⟩
      exact ⟨Except.error msg, hmsg⟩
    | cons a t =>
      cases t with
      | nil => exact ⟨Except.ok a, hone a hm⟩
      | cons b t2 =>
        refine ⟨_, hmany ?_⟩
        rw [hm]
        simp
  · intro n hn
    simp only [matchingPresets] at hn
    rcases List.mem_map.mp hn with ⟨np, hnp, rfl⟩
    rcases List.mem_filter.mp hnp with ⟨hmem, hq⟩
    exact ⟨np.2, by simpa using hmem, hq⟩

/-- Witness for C2: the underspecified input `ctu=32` matches both
`ultrafast` and `superfast`, reported in catalog order. -/
theorem claim_C2_witness :
    determine_preset ⟨0, false⟩ [(("ctu" : String), ("32" : String))] =
      some (Except.error
        "Multiple matching presets found: [\"ultrafast\", \"superfast\"]") := by
  have h := (claim_C2 ⟨0, false⟩ [("ctu", "32")]).2.2.2.1 (by decide)
  exact h.trans (by rfl)

/-- C5 counterexample: on the empty observed map
`partially_matching_presets` does not degenerate to header-only output
— it fails (the `expect` inside `width_of_values` panics, modelled as
`none`). -/
theorem claim_C5_counterexample :
    partially_matching_presets ⟨1, false⟩ [] = none := rfl

/-- C5 (amended): `partially_matching_presets` returns without failing
exactly when, below verbosity 2, the observed map shares at least one
key with the preset parameter schema, and, at verbosity 2 or above,
the observed map is nonempty; on an empty observed map (or one sharing
no schema key below verbosity 2) it fails on an internal `expect`
instead of rendering a header-only table. -/
theorem claim_C5 (cfg : Cfg) (observed : List (String × String)) :
    (partially_matching_presets cfg observed).isSome = true ↔
      (if cfg.verbose < 2
       then ∃ k, k ∈ observed.map Prod.fst ∧ k ∈ schemaParams
       else observed ≠ []) :=
  partially_isSome_iff cfg observed

/-- Witness for C5 at a concrete nonempty observed map. -/
theorem claim_C5_witness :
    (partially_matching_presets ⟨1, false⟩ [(("ctu" : String), ("32" : String))]).isSome = true :=
  (claim_C5 ⟨1, false⟩ [("ctu", "32")]).mpr
    (by
      have hv : (Cfg.mk 1 false).verbose < 2 := by decide
      rw [if_pos hv]
      exact ⟨"ctu", by simp, by decide⟩)

/-- C7: at verbosity 0 the input `ctu=32 min-cu-size=8 bframes=8`
yields the NoMatch error with the debug-formatted ranking in exactly
the sort-then-reverse tie-break order, matching the repository's own
test string. -/
theorem claim_C7 :
    determine_preset_from_str ⟨0, false⟩ "ctu=32 min-cu-size=8 bframes=8" =
      some (Except.error
        "No matching presets found. Closest matches:\n:[(\"placebo\", 2), (\"veryslow\", 2), (\"slower\", 2), (\"superfast\", 2), (\"slow\", 1), (\"medium\", 1), (\"fast\", 1), (\"faster\", 1), (\"veryfast\", 1), (\"ultrafast\", 1)]") := by
  rfl

/-! The normalization pass characterized through lookups and keys. -/

theorem normalize_lookup (s : List (String × String)) (k : String) :
    slookup (normalize_settings s) k =
      if k = "me" then none
      else if k = "lookahead-slices" ∧ slookup s k = some "0" then some "1"
      else slookup s k := by
  have hlasme : ("lookahead-slices" : String) ≠ "me" := by decide
  have hlt : slookup (s.filter fun kv => kv.1 != "me") "lookahead-slices" =
      slookup s "lookahead-slices" := by
    rw [slookup_filter_ne, if_neg hlasme]
  simp only [normalize_settings]
  cases hl : slookup (s.filter fun kv => kv.1 != "me") "lookahead-slices" with
  | none =>
    have hsl : slookup s "lookahead-slices" = none := by rw [← hlt, hl]
    by_cases hk : k = "me"
    · rw [if_pos hk, slookup_filter_ne, if_pos hk]
    · rw [if_neg hk]
      by_cases hk2 : k = "lookahead-slices"
      · subst hk2
        rw [if_neg fun hc => by rw [hsl] at hc; exact Option.noConfusion hc.2]
        rw [slookup_filter_ne, if_neg hk]
      · rw [if_neg fun hc => hk2 hc.1, slookup_filter_ne, if_neg hk]
  | some v =>
    dsimp only
    have hsl : slookup s "lookahead-slices" = some v := by rw [← hlt, hl]
    by_cases hv : v = "0"
    · subst hv
      rw [if_pos rfl]
      by_cases hk : k = "me"
      · rw [if_pos hk]
        rw [slookup_map_update (by rw [hk]; exact fun h => hlasme h.symm)]
        rw [slookup_filter_ne, if_pos hk]
      · rw [if_neg hk]
        by_cases hk2 : k = "lookahead-slices"
        · subst hk2
          rw [if_pos ⟨rfl, hsl⟩]
          exact slookup_map_update_self hl
        · rw [if_neg fun hc => hk2 hc.1]
          rw [slookup_map_update hk2, slookup_filter_ne, if_neg hk]
    · rw [if_neg hv]
      by_cases hk : k = "me"
      · rw [if_pos hk, slookup_filter_ne, if_pos hk]
      · rw [if_neg hk]
        by_cases hk2 : k = "lookahead-slices"
        · subst hk2
          rw [if_neg fun hc => hv (Option.some.inj (hsl.symm.trans hc.2))]
          rw [slookup_filter_ne, if_neg hk]
        · rw [if_neg fun hc => hk2 hc.1, slookup_filter_ne, if_neg hk]

theorem keys_filter_ne (s : List (String × String)) (a : String) :
    (s.filter fun kv => kv.1 != a).map Prod.fst =
      (s.map Prod.fst).filter fun k => k != a := by
  induction s with
  | nil => rfl
  | cons kv t ih =>
    by_cases h : (kv.1 != a) = true
    · simp [List.filter_cons, h, ih]
    · simp only [Bool.not_eq_true] at h
      simp [List.filter_cons, h, ih]

theorem normalize_keys (s : List (String × String)) :
    (normalize_settings s).map Prod.fst =
      (s.map Prod.fst).filter fun k => k != "me" := by
  rw [← keys_filter_ne]
  simp only [normalize_settings]
  cases slookup (s.filter fun kv => kv.1 != "me") "lookahead-slices" with
  | none => rfl
  | some v =>
    dsimp only
    by_cases hv : v = "0"
    · subst hv
      rw [if_pos rfl]
      exact keys_map_update
    · rw [if_neg hv]

/-- C8: the normalization pass removes the `me` key, rewrites
`lookahead-slices` to `"1"` exactly when it is present with literal
value `"0"`, leaves every other key and value unchanged (the key set is
the observed key set minus `me`), and never fails. -/
theorem claim_C8 (s : List (String × String)) :
    slookup (normalize_settings s) "me" = none
    ∧ (∀ k : String, k ≠ "me" → k ≠ "lookahead-slices" →
        slookup (normalize_settings s) k = slookup s k)
    ∧ (slookup s "lookahead-slices" = some "0" →
        slookup (normalize_settings s) "lookahead-slices" = some "1")
    ∧ (∀ v : String, slookup s "lookahead-slices" = some v → v ≠ "0" →
        slookup (normalize_settings s) "lookahead-slices" = some v)
    ∧ (slookup s "lookahead-slices" = none →
        slookup (normalize_settings s) "lookahead-slices" = none)
    ∧ (normalize_settings s).map Prod.fst =
        (s.map Prod.fst).filter fun k => k != "me" := by
  have hlasme : ("lookahead-slices" : String) ≠ "me" := by decide
  refine ⟨?_, ?_, ?_, ?_, ?_, normalize_keys s⟩
  · rw [normalize_lookup, if_pos rfl]
  · intro k h1 h2
    rw [normalize_lookup, if_neg h1, if_neg fun hc => h2 hc.1]
  · intro h
    rw [normalize_lookup, if_neg hlasme, if_pos ⟨rfl, h⟩]
  · intro v hv hne
    rw [normalize_lookup, if_neg hlasme,
      if_neg fun hc => hne (Option.some.inj (hv.symm.trans hc.2))]
    exact hv
  · intro h
    rw [normalize_lookup, if_neg hlasme,
      if_neg fun hc => Option.noConfusion (h.symm.trans hc.2)]
    exact h

/-- Witness for C8 at a concrete parsed map containing both `me` and
`lookahead-slices=0`. -/
theorem claim_C8_witness :
    slookup [(("me" : String), ("3" : String)), ("lookahead-slices", "0")]
        "lookahead-slices" = some "0" ∧
      slookup (normalize_settings [("me", "3"), ("lookahead-slices", "0")])
        "lookahead-slices" = some "1" :=
  ⟨rfl, (claim_C8 [("me", "3"), ("lookahead-slices", "0")]).2.2.1 rfl⟩

end DeterminePreset
